import Mathlib

/-!
Verification of the RS485 bus-master protocol engine (RS485Master.js):
frame codec (CRC-16/CCITT-FALSE, line-delimited ASCII frames), device
registry, discovery loop, confirmation handshake, round-robin polling
scheduler and fault handling.  Messages are modelled as lists of
characters; JavaScript string-keyed objects are modelled as association
lists; the asynchronous sends and pacing delays are modelled as an
explicit event trace.
-/

set_option maxRecDepth 100000

namespace RS485

/-! Tunable constants, from the top of RS485Master.js. -/

def maxDiscoveryAttempts : Nat := 1000

def waitTime : Nat := 100

def connectedMessageRetries : Nat := 3

def maxErrorCount : Nat := 5

/-! The CRC, from calculateCRC (lines 22-36).  One step of the inner
loop: test the top bit, shift left, XOR the polynomial when the top bit
was set, and mask back to 16 bits. -/

def crcShift (crc : Nat) : Nat :=
  if crc &&& 0x8000 ≠ 0 then ((crc <<< 1) ^^^ 0x1021) &&& 0xFFFF
  else (crc <<< 1) &&& 0xFFFF

def iterShift : Nat → Nat → Nat
  | 0, x => x
  | k + 1, x => iterShift k (crcShift x)

def crcByte (crc c : Nat) : Nat := iterShift 8 (crc ^^^ (c <<< 8))

def calculateCRC (data : List Char) : Nat :=
  data.foldl (fun crc ch => crcByte crc ch.toNat) 0xFFFF

/-! Reference CRC, modelled from the words of the spec (section 4.1):
a 16-bit CRC over the message bytes, most-significant-bit first,
polynomial 0x1021, initial register 0xFFFF; each input byte is XORed
into the top byte of the register before 8 bitwise steps, each step
shifting left one bit, XORing the polynomial when the top bit before
the shift was set, and masking to 16 bits after each step. -/

def refStep (crc : Nat) : Nat :=
  (if crc &&& 0x8000 ≠ 0 then (crc <<< 1) ^^^ 0x1021 else crc <<< 1) &&& 0xFFFF

def refIter : Nat → Nat → Nat
  | 0, x => x
  | k + 1, x => refIter k (refStep x)

def refCRC (bytes : List Nat) : Nat :=
  bytes.foldl (fun crc b => refIter 8 (crc ^^^ (b <<< 8))) 0xFFFF

/-! Uppercase hexadecimal rendering, modelling the JavaScript
crc.toString(16).toUpperCase().  Fuel-based structural recursion so the
kernel can evaluate it on concrete inputs. -/

def hexDigit (d : Nat) : Char := "0123456789ABCDEF".data.getD d '0'

def toHexAux : Nat → Nat → List Char → List Char
  | 0, _, acc => acc
  | fuel + 1, n, acc =>
    if n = 0 then acc else toHexAux fuel (n / 16) (hexDigit (n % 16) :: acc)

def toHexUpper (n : Nat) : List Char :=
  if n = 0 then ['0'] else toHexAux (n + 1) n []

/-! JavaScript whitespace test (ASCII range) used by trim and by the
leading-whitespace skipping in parseInt. -/

def isJsWs (c : Char) : Bool := c.toNat = 32 ∨ (9 ≤ c.toNat ∧ c.toNat ≤ 13)

/-! parseInt(str, 16), modelled on lists of characters: skip leading
whitespace, optional sign, optional 0x prefix, then the longest prefix
of hexadecimal digits; no digit gives NaN, modelled as none. -/

def hexVal (c : Char) : Option Nat :=
  if 48 ≤ c.toNat ∧ c.toNat ≤ 57 then some (c.toNat - 48)
  else if 65 ≤ c.toNat ∧ c.toNat ≤ 70 then some (c.toNat - 55)
  else if 97 ≤ c.toNat ∧ c.toNat ≤ 102 then some (c.toNat - 87)
  else none

def parseIntHex (l : List Char) : Option Int :=
  let l1 := l.dropWhile (fun c => isJsWs c)
  let neg : Bool := l1.headD ' ' = '-'
  let l2 := if l1.headD ' ' = '-' ∨ l1.headD ' ' = '+' then l1.tail else l1
  let l3 :=
    if l2.headD ' ' = '0' ∧ (l2.tail.headD ' ' = 'x' ∨ l2.tail.headD ' ' = 'X') then
      l2.tail.tail
    else l2
  let digits := l3.takeWhile (fun c => (hexVal c).isSome)
  if digits.isEmpty then none
  else
    let v : Int := Int.ofNat (digits.foldl (fun a c => a * 16 + (hexVal c).getD 0) 0)
    some (if neg then -v else v)

/-! String utilities mirroring the JavaScript ones used by the codec:
split on a separator character, trim, and lastIndexOf. -/

def splitOnChar (sep : Char) : List Char → List (List Char)
  | [] => [[]]
  | c :: t =>
    let r := splitOnChar sep t
    if c = sep then [] :: r else (c :: r.headD []) :: r.tail

def jsTrim (l : List Char) : List Char :=
  ((l.dropWhile (fun c => isJsWs c)).reverse.dropWhile (fun c => isJsWs c)).reverse

def lastIdxOf (sep : Char) : List Char → Option Nat
  | [] => none
  | c :: t =>
    match lastIdxOf sep t with
    | some i => some (i + 1)
    | none => if c = sep then some 0 else none

/-! A frame on the wire: payload, comma, uppercase-hex CRC of the
payload, then the line terminator.  withCRC is the frame without the
terminator (what handleSerialData sees after trimming). -/

def withCRC (m : List Char) : List Char := m ++ ',' :: toHexUpper (calculateCRC m)

def frameOf (m : List Char) : List Char := withCRC m ++ ['\n']

/-! Engine state: the mutable globals of RS485Master.js (lines 8-20).
JavaScript string-keyed objects become association lists keyed by the
character list of the key. -/

structure EngineState where
  deviceAddresses : List (List Char)
  deviceTemperatures : List (List Char × List Char)
  connectedDevices : List (List Char × Bool)
  confirmationRetries : List (List Char × Nat)
  errorCounters : List (List Char × Nat)
  discoveryAttempts : Nat
  currentDeviceIndex : Nat
  isSampling : Bool
  deriving DecidableEq

def initState : EngineState := ⟨[], [], [], [], [], 0, 0, false⟩

/-! Association-list read and write, modelling obj[k] and obj[k] = v. -/

def getA {β : Type} : List (List Char × β) → List Char → Option β
  | [], _ => none
  | p :: t, k => if p.1 = k then some p.2 else getA t k

def setA {β : Type} : List (List Char × β) → List Char → β → List (List Char × β)
  | [], k, v => [(k, v)]
  | p :: t, k, v => if p.1 = k then (k, v) :: t else p :: setA t k v

/-! Observable effects: writes to the serial port, awaited pacing
delays, setTimeout scheduling, and the two corrupted-frame log lines. -/

inductive Event where
  | send (frame : List Char)
  | delay (ms : Nat)
  | schedulePoll (ms : Nat)
  | scheduleCheck (ms : Nat)
  | retryDiscovery
  | framingErrorLog
  | integrityErrorLog
  deriving DecidableEq

/-! handleCorruptedData (lines 152-166): attribute the fault to the
device at the cursor; if none (empty registry, out-of-range index, or
an empty/falsy address) return without doing anything; otherwise
increment its error counter, skip past it once the counter exceeds the
threshold, and schedule the next temperature request. -/

def handleCorruptedData (s : EngineState) : EngineState × List Event :=
  match s.deviceAddresses.get? s.currentDeviceIndex with
  | none => (s, [])
  | some address =>
    if address = [] then (s, [])
    else
      let n := (getA s.errorCounters address).getD 0 + 1
      let s1 := { s with errorCounters := setA s.errorCounters address n }
      let s2 :=
        if maxErrorCount < n then
          { s1 with currentDeviceIndex :=
              (s1.currentDeviceIndex + 1) % s1.deviceAddresses.length }
        else s1
      (s2, [Event.schedulePoll waitTime])

/-! sendConnectedMessage (lines 168-177): three sends of the
address,CONNECTED frame, each awaited with a 100 ms delay, and only
then connectedDevices[address] = true. -/

def connectTrace (f : List Char) : Nat → List Event
  | 0 => []
  | k + 1 => Event.send f :: Event.delay 100 :: connectTrace f k

def sendConnectedMessage (s : EngineState) (address : List Char) :
    EngineState × List Event :=
  ({ s with connectedDevices := setA s.connectedDevices address true },
   connectTrace (frameOf (address ++ ",CONNECTED".data)) connectedMessageRetries)

/-! Registration of a newly announced device (lines 141-145). -/

def registerDevice (s : EngineState) (message : List Char) : EngineState :=
  { s with
    deviceAddresses := s.deviceAddresses ++ [message]
    deviceTemperatures := setA s.deviceTemperatures message "N/A".data
    errorCounters := setA s.errorCounters message 0
    confirmationRetries := setA s.confirmationRetries message 0
    connectedDevices := setA s.connectedDevices message false }

/-! The guarded registration (lines 140-148): only a message that is
neither marked connected nor already in the registry is registered and
acknowledged. -/

def tryRegister (s : EngineState) (message : List Char) : EngineState × List Event :=
  if (getA s.connectedDevices message).getD false = false ∧
      message ∉ s.deviceAddresses then
    sendConnectedMessage (registerDevice s message) message
  else (s, [])

/-! handleSerialData (lines 86-149) on one already-trimmed line: empty
input is ignored; no comma is a framing failure; a CRC mismatch is an
integrity failure; a valid message of the form address,value for a
known address records the reading, clears the error counter, advances
the cursor and (while sampling) schedules the next poll; any other
valid message is treated as a device announcement. -/

def handleSerialData (s : EngineState) (data : List Char) : EngineState × List Event :=
  if data.isEmpty then (s, [])
  else
    match lastIdxOf ',' data with
    | none =>
      ((handleCorruptedData s).1, Event.framingErrorLog :: (handleCorruptedData s).2)
    | some i =>
      let message := data.take i
      let receivedCRC := parseIntHex (data.drop (i + 1))
      if receivedCRC ≠ some (Int.ofNat (calculateCRC message)) then
        ((handleCorruptedData s).1, Event.integrityErrorLog :: (handleCorruptedData s).2)
      else
        if ',' ∈ message then
          let address := (splitOnChar ',' message).headD []
          let tempData := ((splitOnChar ',' message).get? 1).getD []
          if address ∈ s.deviceAddresses then
            ({ s with
               deviceTemperatures := setA s.deviceTemperatures address tempData
               errorCounters := setA s.errorCounters address 0
               currentDeviceIndex :=
                 (s.currentDeviceIndex + 1) % s.deviceAddresses.length },
             if s.isSampling then [Event.schedulePoll waitTime] else [])
          else tryRegister s message
        else tryRegister s message

/-! processSerialBuffer (lines 78-85) hands each complete line, trimmed,
to handleSerialData. -/

def processLine (s : EngineState) (line : List Char) : EngineState × List Event :=
  handleSerialData s (jsTrim line)

/-! requestTemperature (lines 231-239): nothing is sent when the
registry is empty or sampling is inactive; otherwise the device at the
cursor is polled.  An out-of-range cursor would interpolate the
undefined value as the string undefined, as JavaScript does. -/

def requestTemperature (s : EngineState) : List Event :=
  if s.deviceAddresses.length = 0 ∨ s.isSampling = false then []
  else
    let address := (s.deviceAddresses.get? s.currentDeviceIndex).getD "undefined".data
    [Event.send (frameOf (address ++ ",READTEMP".data))]

/-! startDiscovery (lines 187-209), split into the synchronous send part
and the delayed re-evaluation.  The re-evaluation either retries
discovery or, once at least 4 devices are registered, switches
isSampling on and issues the first poll. -/

def startDiscoveryStep (s : EngineState) : EngineState × List Event :=
  if maxDiscoveryAttempts ≤ s.discoveryAttempts then (s, [])
  else
    ({ s with discoveryAttempts := s.discoveryAttempts + 1 },
     [Event.send (frameOf "DISCOVER".data), Event.scheduleCheck waitTime])

def discoveryCheck (s : EngineState) : EngineState × List Event :=
  if s.deviceAddresses.length < 4 then (s, [Event.retryDiscovery])
  else
    let s1 := { s with isSampling := true }
    (s1, requestTemperature s1)

/-! The whole discovery loop, abstracted over an environment giving the
registry size observed at the k-th delayed re-evaluation; returns the
number of DISCOVER frames sent and the final value of isSampling. -/

def discoveryRun (env : Nat → Nat) (attempts : Nat) : Nat × Bool :=
  if maxDiscoveryAttempts ≤ attempts then (0, false)
  else
    if env attempts < 4 then
      let r := discoveryRun env (attempts + 1)
      (r.1 + 1, r.2)
    else (1, true)
termination_by maxDiscoveryAttempts - attempts
decreasing_by simp_wf; omega

/-! The decoder of the frame codec: split the buffer on the line
terminator, keep the trailing partial line, and parse each complete
line exactly as handleSerialData does (empty after trimming: ignored;
no comma: framing failure; otherwise a frame whose crcOk compares the
parsed hex CRC with the recomputed one). -/

inductive DecodeResult where
  | frame (message : List Char) (crcOk : Bool)
  | framingFailure
  deriving DecidableEq

def decodeLine (l : List Char) : Option DecodeResult :=
  if l.isEmpty then none
  else
    match lastIdxOf ',' l with
    | none => some DecodeResult.framingFailure
    | some i =>
      some (DecodeResult.frame (l.take i)
        (decide (parseIntHex (l.drop (i + 1)) =
          some (Int.ofNat (calculateCRC (l.take i))))))

def decodeFrames (buf : List Char) : List DecodeResult × List Char :=
  let segs := splitOnChar '\n' buf
  (segs.dropLast.filterMap (fun l => decodeLine (jsTrim l)),
   (segs.getLast?).getD [])

/-! One round-robin reading step and its iteration, for the polling
claims: each round the device at the cursor replies with a valid
address,value frame. -/

def readingData (addr val : List Char) : List Char := withCRC (addr ++ ',' :: val)

def runReadings (s : EngineState) : List (List Char) → EngineState × List (List Char)
  | [] => (s, [])
  | v :: rest =>
    let t := (s.deviceAddresses.get? s.currentDeviceIndex).getD []
    let s1 := (handleSerialData s (readingData t v)).1
    let r := runReadings s1 rest
    (r.1, t :: r.2)

/-! A corrupted frame, as handleSerialData classifies one: nonempty
input with either no comma or a CRC that does not match. -/

def isCorrupted (data : List Char) : Bool :=
  !data.isEmpty &&
    match lastIdxOf ',' data with
    | none => true
    | some i =>
      decide (parseIntHex (data.drop (i + 1)) ≠
        some (Int.ofNat (calculateCRC (data.take i))))

/-! Helper lemmas: association lists. -/

theorem getA_setA_self {β : Type} (l : List (List Char × β)) (k : List Char) (v : β) :
    getA (setA l k v) k = some v := by
  induction l with
  | nil => simp [getA, setA]
  | cons p t ih =>
    by_cases h : p.1 = k
    · simp [setA, getA, h]
    · simp [setA, getA, h, ih]

theorem getA_setA_ne {β : Type} (l : List (List Char × β)) (k a : List Char) (v : β)
    (h : a ≠ k) : getA (setA l k v) a = getA l a := by
  have hka : ¬ (k = a) := fun hh => h hh.symm
  induction l with
  | nil => simp [getA, setA, hka]
  | cons p t ih =>
    by_cases hp : p.1 = k
    · simp [setA, getA, hp, hka]
    · simp [setA, getA, hp, ih]

/-! Helper lemmas: generic list facts. -/

theorem take_len_append {α : Type} (l1 l2 : List α) : (l1 ++ l2).take l1.length = l1 := by
  induction l1 with
  | nil => simp
  | cons a t ih => simp [ih]

theorem drop_len_succ_append {α : Type} (l1 l2 : List α) (x : α) :
    (l1 ++ x :: l2).drop (l1.length + 1) = l2 := by
  induction l1 with
  | nil => simp
  | cons a t ih => simpa using ih

theorem mem_dropWhile {α : Type} (p : α → Bool) (l : List α) (c : α)
    (h : c ∈ l.dropWhile p) : c ∈ l := by
  induction l with
  | nil => simpa using h
  | cons a t ih =>
    rw [List.dropWhile_cons] at h
    by_cases hp : p a
    · simp only [hp, if_true] at h
      exact List.mem_cons_of_mem a (ih h)
    · simpa [hp] using h

theorem takeWhile_eq_self {α : Type} (p : α → Bool) (l : List α)
    (h : ∀ c ∈ l, p c = true) : l.takeWhile p = l := by
  induction l with
  | nil => rfl
  | cons a t ih =>
    have ht : ∀ c ∈ t, p c = true := fun c hc => h c (List.mem_cons_of_mem a hc)
    rw [List.takeWhile_cons, h a (List.mem_cons_self a t), if_pos rfl, ih ht]

theorem dropWhile_head_false {α : Type} (p : α → Bool) (l : List α)
    (h : ∀ c, l.head? = some c → p c = false) : l.dropWhile p = l := by
  cases l with
  | nil => rfl
  | cons a t => rw [List.dropWhile_cons, h a rfl]; simp

/-! Helper lemmas: jsTrim. -/

theorem mem_jsTrim (l : List Char) (c : Char) (h : c ∈ jsTrim l) : c ∈ l := by
  unfold jsTrim at h
  rw [List.mem_reverse] at h
  have h1 := mem_dropWhile _ _ _ h
  rw [List.mem_reverse] at h1
  exact mem_dropWhile _ _ _ h1

theorem jsTrim_eq_self (l : List Char)
    (h1 : ∀ c, l.head? = some c → isJsWs c = false)
    (h2 : ∀ c, l.getLast? = some c → isJsWs c = false) : jsTrim l = l := by
  unfold jsTrim
  rw [dropWhile_head_false _ l h1]
  rw [dropWhile_head_false _ l.reverse (by intro c hc; exact h2 c (by rwa [List.head?_reverse] at hc))]
  exact List.reverse_reverse l

/-! Helper lemmas: lastIdxOf. -/

theorem lastIdxOf_eq_none (sep : Char) (l : List Char) (h : sep ∉ l) :
    lastIdxOf sep l = none := by
  induction l with
  | nil => rfl
  | cons a t ih =>
    have ha : a ≠ sep := fun e => h (e ▸ List.mem_cons_self a t)
    have ht : sep ∉ t := fun e => h (List.mem_cons_of_mem a e)
    simp [lastIdxOf, ih ht, ha]

theorem lastIdxOf_append (sep : Char) (l1 l2 : List Char) (h : sep ∉ l2) :
    lastIdxOf sep (l1 ++ sep :: l2) = some l1.length := by
  induction l1 with
  | nil => simp [lastIdxOf, lastIdxOf_eq_none sep l2 h]
  | cons a t ih => simp [lastIdxOf, ih]

/-! Helper lemmas: splitOnChar. -/

theorem splitOnChar_ne_nil (sep : Char) (l : List Char) : splitOnChar sep l ≠ [] := by
  cases l with
  | nil => simp [splitOnChar]
  | cons a t =>
    by_cases h : a = sep <;> simp [splitOnChar, h]

theorem splitOnChar_no_sep (sep : Char) (l : List Char) (h : sep ∉ l) :
    splitOnChar sep l = [l] := by
  induction l with
  | nil => rfl
  | cons a t ih =>
    have ha : a ≠ sep := fun e => h (e ▸ List.mem_cons_self a t)
    have ht : sep ∉ t := fun e => h (List.mem_cons_of_mem a e)
    simp [splitOnChar, ha, ih ht]

theorem splitOnChar_append (sep : Char) (l1 l2 : List Char) (h : sep ∉ l1) :
    splitOnChar sep (l1 ++ sep :: l2) = l1 :: splitOnChar sep l2 := by
  induction l1 with
  | nil => simp [splitOnChar]
  | cons a t ih =>
    have ha : a ≠ sep := fun e => h (e ▸ List.mem_cons_self a t)
    have ht : sep ∉ t := fun e => h (List.mem_cons_of_mem a e)
    simp [splitOnChar, ha, ih ht]

/-! Helper lemmas: hexadecimal rendering and parsing. -/

theorem hexDigit_props (d : Nat) (h : d < 16) :
    isJsWs (hexDigit d) = false ∧ hexDigit d ≠ '-' ∧ hexDigit d ≠ '+' ∧
    hexDigit d ≠ 'x' ∧ hexDigit d ≠ 'X' ∧ hexVal (hexDigit d) = some d := by
  revert h
  revert d
  decide

theorem toHexAux_append (fuel : Nat) : ∀ (n : Nat) (acc : List Char),
    toHexAux fuel n acc = toHexAux fuel n [] ++ acc := by
  induction fuel with
  | zero => intro n acc; simp [toHexAux]
  | succ fuel ih =>
    intro n acc
    by_cases h : n = 0
    · simp [toHexAux, h]
    · rw [toHexAux, toHexAux, if_neg h, if_neg h, ih (n / 16) (hexDigit (n % 16) :: acc),
        ih (n / 16) [hexDigit (n % 16)]]
      simp

theorem toHexAux_mem (fuel : Nat) : ∀ (n : Nat) (acc : List Char) (c : Char),
    c ∈ toHexAux fuel n acc → c ∈ acc ∨ ∃ d, d < 16 ∧ c = hexDigit d := by
  induction fuel with
  | zero => intro n acc c h; exact Or.inl (by simpa [toHexAux] using h)
  | succ fuel ih =>
    intro n acc c h
    by_cases hn : n = 0
    · rw [toHexAux, if_pos hn] at h
      exact Or.inl h
    · rw [toHexAux, if_neg hn] at h
      rcases ih (n / 16) (hexDigit (n % 16) :: acc) c h with hmem | hex
      · rcases List.mem_cons.mp hmem with he | ha
        · exact Or.inr ⟨n % 16, Nat.mod_lt n (by omega), he⟩
        · exact Or.inl ha
      · exact Or.inr hex

theorem toHexAux_val (fuel : Nat) : ∀ n : Nat, n < 16 ^ fuel →
    (toHexAux fuel n []).foldl (fun a c => a * 16 + (hexVal c).getD 0) 0 = n := by
  induction fuel with
  | zero => intro n h; interval_cases n; rfl
  | succ fuel ih =>
    intro n h
    by_cases hn : n = 0
    · simp [toHexAux, hn]
    · rw [toHexAux, if_neg hn, toHexAux_append, List.foldl_append]
      have hdiv : n / 16 < 16 ^ fuel := by
        rw [Nat.div_lt_iff_lt_mul (by norm_num)]
        calc n < 16 ^ (fuel + 1) := h
        _ = 16 ^ fuel * 16 := by ring
      rw [ih (n / 16) hdiv]
      simp [(hexDigit_props (n % 16) (Nat.mod_lt n (by omega))).2.2.2.2.2]
      omega

theorem toHexUpper_mem (n : Nat) (c : Char) (h : c ∈ toHexUpper n) :
    ∃ d, d < 16 ∧ c = hexDigit d := by
  unfold toHexUpper at h
  by_cases hn : n = 0
  · rw [if_pos hn] at h
    exact ⟨0, by omega, by simpa using h⟩
  · rw [if_neg hn] at h
    rcases toHexAux_mem (n + 1) n [] c h with hmem | hex
    · simp at hmem
    · exact hex

theorem toHexUpper_ne_nil (n : Nat) : toHexUpper n ≠ [] := by
  unfold toHexUpper
  by_cases hn : n = 0
  · simp [hn]
  · rw [if_neg hn, toHexAux, if_neg hn, toHexAux_append]
    simp

theorem toHexUpper_val (n : Nat) :
    (toHexUpper n).foldl (fun a c => a * 16 + (hexVal c).getD 0) 0 = n := by
  unfold toHexUpper
  by_cases hn : n = 0
  · simp [hn, hexVal]
  · rw [if_neg hn]
    exact toHexAux_val (n + 1) n (Nat.lt_of_lt_of_le (Nat.lt_pow_self (by norm_num) n)
      (Nat.pow_le_pow_right (by norm_num) (Nat.le_succ n)))

theorem parseIntHex_hexlist (l : List Char) (hne : l ≠ [])
    (h : ∀ c ∈ l, ∃ d, d < 16 ∧ c = hexDigit d) :
    parseIntHex l = some (Int.ofNat (l.foldl (fun a c => a * 16 + (hexVal c).getD 0) 0)) := by
  match l, hne with
  | c0 :: t, _ =>
    obtain ⟨d0, hd0, hc0⟩ := h c0 (List.mem_cons_self c0 t)
    have hp0 := hexDigit_props d0 hd0
    have hws : isJsWs c0 = false := hc0 ▸ hp0.1
    have hdrop : (c0 :: t).dropWhile (fun c => isJsWs c) = c0 :: t := by
      rw [List.dropWhile_cons, hws]; simp
    have h1 : c0 ≠ '-' := hc0 ▸ hp0.2.1
    have h2 : c0 ≠ '+' := hc0 ▸ hp0.2.2.1
    have htake : (c0 :: t).takeWhile (fun c => (hexVal c).isSome) = c0 :: t := by
      apply takeWhile_eq_self
      intro c hc
      obtain ⟨d, hd, hcd⟩ := h c hc
      rw [hcd, (hexDigit_props d hd).2.2.2.2.2]
      rfl
    have hsign : (c0 = '-' ∨ c0 = '+') = False := by simp [h1, h2]
    cases t with
    | nil =>
      unfold parseIntHex
      rw [hdrop]
      simp only [List.headD_cons, List.tail_cons, hsign, if_false]
      have h0x : (c0 = '0' ∧ (List.headD [] ' ' = 'x' ∨ List.headD [] ' ' = 'X')) = False := by
        simp
      simp only [h0x, if_false]
      rw [htake]
      simp [h1]
    | cons c1 t1 =>
      obtain ⟨d1, hd1, hc1⟩ := h c1 (List.mem_cons_of_mem c0 (List.mem_cons_self c1 t1))
      have hp1 := hexDigit_props d1 hd1
      have hx : c1 ≠ 'x' := hc1 ▸ hp1.2.2.2.1
      have hX : c1 ≠ 'X' := hc1 ▸ hp1.2.2.2.2.1
      unfold parseIntHex
      rw [hdrop]
      simp only [List.headD_cons, List.tail_cons, hsign, if_false]
      have h0x : (c0 = '0' ∧ (c1 = 'x' ∨ c1 = 'X')) = False := by simp [hx, hX]
      simp only [h0x, if_false]
      rw [htake]
      simp [h1]

theorem parseIntHex_toHexUpper (n : Nat) :
    parseIntHex (toHexUpper n) = some (Int.ofNat n) := by
  rw [parseIntHex_hexlist (toHexUpper n) (toHexUpper_ne_nil n) (toHexUpper_mem n),
    toHexUpper_val]

/-! Helper lemmas: properties of the frame text. -/

theorem withCRC_parses (m : List Char) :
    lastIdxOf ',' (withCRC m) = some m.length ∧
    (withCRC m).take m.length = m ∧
    (withCRC m).drop (m.length + 1) = toHexUpper (calculateCRC m) := by
  have hnc : ',' ∉ toHexUpper (calculateCRC m) := by
    intro hc
    obtain ⟨d, hd, he⟩ := toHexUpper_mem _ _ hc
    have hall : ∀ d, d < 16 → hexDigit d ≠ ',' := by decide
    exact hall d hd he.symm
  exact ⟨lastIdxOf_append ',' m _ hnc, take_len_append m _, drop_len_succ_append m _ ','⟩

/-! Claim C2: the code CRC agrees with the spec reference CRC. -/

theorem crcShift_eq_refStep (x : Nat) : crcShift x = refStep x := by
  unfold crcShift refStep
  rw [apply_ite (fun y => y &&& 0xFFFF)]

theorem iterShift_eq_refIter (k : Nat) : ∀ x : Nat, iterShift k x = refIter k x := by
  induction k with
  | zero => intro x; rfl
  | succ k ih => intro x; rw [iterShift, refIter, crcShift_eq_refStep, ih]

/-- Claim C2: for every ASCII string, calculateCRC computes the reference
16-bit CRC with polynomial 0x1021 and initial register 0xFFFF, MSB-first:
each input byte is XORed into the top byte of the register, then 8 steps
each shift left one bit, XOR the polynomial when the top bit before the
shift was set, and mask to 16 bits. -/
theorem calculateCRC_matches_reference (data : List Char)
    (h : ∀ c ∈ data, c.toNat < 128) :
    calculateCRC data = refCRC (data.map Char.toNat) := by
  unfold calculateCRC refCRC
  rw [List.foldl_map]
  simp only [crcByte, iterShift_eq_refIter]

theorem calculateCRC_matches_reference_witness :
    (∀ c ∈ "DISCOVER".data, c.toNat < 128) ∧
    calculateCRC "DISCOVER".data = refCRC ("DISCOVER".data.map Char.toNat) :=
  ⟨by decide, calculateCRC_matches_reference "DISCOVER".data (by decide)⟩

/-! Claim C1: encode/decode round trip. -/

theorem mem_of_getLast? {α : Type} (l : List α) (c : α) (h : l.getLast? = some c) :
    c ∈ l := by
  rw [← List.head?_reverse] at h
  have hm : c ∈ l.reverse := by
    cases hr : l.reverse with
    | nil => rw [hr] at h; simp at h
    | cons a t =>
      rw [hr] at h
      simp only [List.head?_cons, Option.some.injEq] at h
      exact h ▸ List.mem_cons_self a t
  exact List.mem_reverse.mp hm

theorem nl_not_mem_withCRC (m : List Char) (hnl : '\n' ∉ m) : '\n' ∉ withCRC m := by
  unfold withCRC
  intro hc
  rcases List.mem_append.mp hc with h | h
  · exact hnl h
  · rcases List.mem_cons.mp h with h | h
    · exact absurd h (by decide)
    · obtain ⟨d, hd, he⟩ := toHexUpper_mem _ _ h
      have hall : ∀ d, d < 16 → hexDigit d ≠ '\n' := by decide
      exact hall d hd he.symm

theorem jsTrim_withCRC (m : List Char)
    (hhd : ∀ c, m.head? = some c → isJsWs c = false) :
    jsTrim (withCRC m) = withCRC m := by
  apply jsTrim_eq_self
  · intro c hc
    cases m with
    | nil =>
      unfold withCRC at hc
      simp only [List.nil_append, List.head?_cons, Option.some.injEq] at hc
      rw [← hc]
      decide
    | cons a t =>
      unfold withCRC at hc
      simp only [List.cons_append, List.head?_cons, Option.some.injEq] at hc
      exact hc ▸ hhd a rfl
  · intro c hc
    have he : (withCRC m).getLast? = (toHexUpper (calculateCRC m)).getLast? := by
      unfold withCRC
      rw [List.getLast?_append_of_ne_nil _ (by simp :
        (',' :: toHexUpper (calculateCRC m)) ≠ [])]
      have hsplit : ',' :: toHexUpper (calculateCRC m) =
          [','] ++ toHexUpper (calculateCRC m) := rfl
      rw [hsplit, List.getLast?_append_of_ne_nil _ (toHexUpper_ne_nil _)]
    rw [he] at hc
    obtain ⟨d, hd, hce⟩ := toHexUpper_mem _ _ (mem_of_getLast? _ _ hc)
    rw [hce]
    exact (hexDigit_props d hd).1

theorem decodeLine_withCRC (m : List Char) :
    decodeLine (withCRC m) = some (DecodeResult.frame m true) := by
  obtain ⟨hidx, htake, hdrop⟩ := withCRC_parses m
  unfold decodeLine
  rw [if_neg (by
    unfold withCRC
    simp [List.isEmpty_iff])]
  rw [hidx]
  dsimp only
  rw [htake, hdrop, parseIntHex_toHexUpper]
  simp

/-- Claim C1 (amended): for every ASCII message that contains no newline
and does not begin with a whitespace character, decoding the frame
produced by encoding it (message, comma, 16-bit CRC in uppercase
hexadecimal, line terminator) yields a single frame with crcOk = true
whose recovered message is exactly the original one, and an empty
carry-over buffer. -/
theorem encode_decode_roundtrip (m : List Char)
    (hascii : ∀ c ∈ m, c.toNat < 128)
    (hhd : ∀ c, m.head? = some c → isJsWs c = false)
    (hnl : '\n' ∉ m) :
    decodeFrames (frameOf m) = ([DecodeResult.frame m true], []) := by
  unfold decodeFrames frameOf
  rw [splitOnChar_append '\n' (withCRC m) [] (nl_not_mem_withCRC m hnl)]
  have hsplit : splitOnChar '\n' [] = [[]] := rfl
  rw [hsplit]
  have hline : decodeLine (jsTrim (withCRC m)) = some (DecodeResult.frame m true) := by
    rw [jsTrim_withCRC m hhd, decodeLine_withCRC]
  simp [hline]

theorem encode_decode_roundtrip_witness :
    decodeFrames (frameOf "D1,23.5".data) =
      ([DecodeResult.frame "D1,23.5".data true], []) :=
  encode_decode_roundtrip "D1,23.5".data (by decide) (by decide) (by decide)

/-- Claim C1 counterexample: the round trip does not hold for every ASCII
message.  The message consisting of a space followed by A is encoded, but
the decoder trims the line, so the recovered message is just A and the
CRC check fails. -/
theorem encode_decode_roundtrip_cex :
    decodeFrames (frameOf (' ' :: ['A'])) = ([DecodeResult.frame ['A'] false], []) ∧
    decodeFrames (frameOf (' ' :: ['A'])) ≠
      ([DecodeResult.frame (' ' :: ['A']) true], []) := by
  constructor
  · decide
  · decide

/-! Claim C3: the discovery loop termination policy. -/

theorem discoveryRun_exhaust (env : Nat → Nat) :
    ∀ (n a : Nat), n = maxDiscoveryAttempts - a →
      (∀ k, a ≤ k → k < maxDiscoveryAttempts → env k < 4) →
      discoveryRun env a = (n, false) := by
  intro n
  induction n with
  | zero =>
    intro a hn h
    rw [discoveryRun, if_pos (by omega)]
  | succ n ih =>
    intro a hn h
    have ha : a < maxDiscoveryAttempts := by omega
    rw [discoveryRun, if_neg (by omega), if_pos (h a le_rfl ha)]
    simp only [ih (a + 1) (by omega) (fun k hk1 hk2 => h k (by omega) hk2)]

theorem discoveryRun_found (env : Nat → Nat) :
    ∀ (m a k : Nat), m = k - a → a ≤ k → k < maxDiscoveryAttempts → 4 ≤ env k →
      (∀ j, a ≤ j → j < k → env j < 4) →
      discoveryRun env a = (k + 1 - a, true) := by
  intro m
  induction m with
  | zero =>
    intro a k hm hak hk h4 hj
    have hak2 : a = k := by omega
    subst hak2
    rw [discoveryRun, if_neg (by omega), if_neg (by omega)]
    rw [show a + 1 - a = 1 from by omega]
  | succ m ih =>
    intro a k hm hak hk h4 hj
    have haltk : a < k := by omega
    rw [discoveryRun, if_neg (by omega), if_pos (hj a le_rfl haltk)]
    simp only [ih (a + 1) k (by omega) (by omega) hk h4
      (fun j hj1 hj2 => hj j (by omega) hj2)]
    have harith : k - a + 1 = k + 1 - a := by omega
    simp [harith]

/-- Claim C3: the discovery loop stops issuing DISCOVER broadcasts exactly
when the registry size reaches 4 and never before: if the size never
reaches 4 at any of the first 1000 delayed checks it sends exactly 1000
DISCOVER frames and halts without sampling; if the size first reaches 4
at check k it sends exactly k+1 DISCOVER frames and stops with sampling
switched on; and the re-evaluation with at least 4 registered devices
sets isSampling and issues the first temperature poll. -/
theorem discovery_stop_policy :
    (∀ env : Nat → Nat, (∀ k, k < maxDiscoveryAttempts → env k < 4) →
      discoveryRun env 0 = (maxDiscoveryAttempts, false)) ∧
    (∀ env : Nat → Nat, ∀ k, k < maxDiscoveryAttempts → 4 ≤ env k →
      (∀ j, j < k → env j < 4) → discoveryRun env 0 = (k + 1, true)) ∧
    (∀ s : EngineState, 4 ≤ s.deviceAddresses.length →
      (discoveryCheck s).1.isSampling = true ∧
      (discoveryCheck s).2 = requestTemperature (discoveryCheck s).1) := by
  refine ⟨?_, ?_, ?_⟩
  · intro env h
    rw [discoveryRun_exhaust env maxDiscoveryAttempts 0 (by omega)
      (fun k _ hk => h k hk)]
  · intro env k hk h4 hj
    rw [discoveryRun_found env k 0 k (by omega) (by omega) hk h4
      (fun j _ hj2 => hj j hj2)]
    simp
  · intro s h4
    unfold discoveryCheck
    rw [if_neg (by omega)]
    exact ⟨rfl, rfl⟩

theorem discovery_stop_policy_witness :
    discoveryRun (fun _ => 0) 0 = (maxDiscoveryAttempts, false) ∧
    discoveryRun (fun _ => 4) 0 = (1, true) ∧
    (discoveryCheck { initState with
      deviceAddresses := [['A'], ['B'], ['C'], ['D']] }).1.isSampling = true :=
  ⟨discovery_stop_policy.1 (fun _ => 0) (fun k hk => by norm_num),
   discovery_stop_policy.2.1 (fun _ => 4) 0 (by decide) (by norm_num)
     (fun j hj => absurd hj (Nat.not_lt_zero j)),
   (discovery_stop_policy.2.2 _ (by simp)).1⟩

/-! Claim C4: registration and confirmation handshake. -/

theorem getA_mem {β : Type} (l : List (List Char × β)) (k : List Char) (v : β)
    (h : getA l k = some v) : (k, v) ∈ l := by
  induction l with
  | nil => simp [getA] at h
  | cons p t ih =>
    unfold getA at h
    by_cases hp : p.1 = k
    · rw [if_pos hp, Option.some.injEq] at h
      have hpe : p = (k, v) := Prod.ext hp h
      exact hpe ▸ List.mem_cons_self p t
    · rw [if_neg hp] at h
      exact List.mem_cons_of_mem p (ih h)

theorem handleSerialData_valid (s : EngineState) (msg : List Char) :
    handleSerialData s (withCRC msg) =
      if ',' ∈ msg then
        if (splitOnChar ',' msg).headD [] ∈ s.deviceAddresses then
          ({ s with
             deviceTemperatures := setA s.deviceTemperatures
               ((splitOnChar ',' msg).headD [])
               (((splitOnChar ',' msg).get? 1).getD [])
             errorCounters := setA s.errorCounters ((splitOnChar ',' msg).headD []) 0
             currentDeviceIndex :=
               (s.currentDeviceIndex + 1) % s.deviceAddresses.length },
           if s.isSampling then [Event.schedulePoll waitTime] else [])
        else tryRegister s msg
      else tryRegister s msg := by
  obtain ⟨hidx, htake, hdrop⟩ := withCRC_parses msg
  unfold handleSerialData
  rw [if_neg (by
    unfold withCRC
    simp [List.isEmpty_iff])]
  rw [hidx]
  dsimp only
  rw [htake, hdrop, parseIntHex_toHexUpper]
  rw [if_neg (by simp)]

/-- Claim C4: when a valid frame carries a bare address token not already
present in the registry (in any reachable state, where a device marked
connected is always registered), the engine registers the device with
errorCount = 0 and confirmed = false, sends exactly 3 frames of the form
address,CONNECTED each followed by a 100 ms delay, and only after the
third send marks the device confirmed = true. -/
theorem register_and_confirm (s : EngineState) (m : List Char)
    (hm : m ≠ []) (hc : ',' ∉ m)
    (hinv : ∀ p ∈ s.connectedDevices, p.2 = true → p.1 ∈ s.deviceAddresses)
    (hnew : m ∉ s.deviceAddresses) :
    handleSerialData s (withCRC m) = sendConnectedMessage (registerDevice s m) m ∧
    (registerDevice s m).deviceAddresses = s.deviceAddresses ++ [m] ∧
    getA (registerDevice s m).errorCounters m = some 0 ∧
    getA (registerDevice s m).connectedDevices m = some false ∧
    (sendConnectedMessage (registerDevice s m) m).2 =
      [Event.send (frameOf (m ++ ",CONNECTED".data)), Event.delay 100,
       Event.send (frameOf (m ++ ",CONNECTED".data)), Event.delay 100,
       Event.send (frameOf (m ++ ",CONNECTED".data)), Event.delay 100] ∧
    getA (sendConnectedMessage (registerDevice s m) m).1.connectedDevices m =
      some true := by
  have hcond : (getA s.connectedDevices m).getD false = false := by
    cases hg : getA s.connectedDevices m with
    | none => rfl
    | some b =>
      cases b with
      | false => rfl
      | true => exact absurd (hinv _ (getA_mem _ _ _ hg) rfl) hnew
  refine ⟨?_, rfl, getA_setA_self _ _ _, ?_, rfl, ?_⟩
  · rw [handleSerialData_valid, if_neg hc]
    unfold tryRegister
    rw [if_pos ⟨hcond, hnew⟩]
  · exact getA_setA_self _ _ _
  · exact getA_setA_self _ _ _

theorem register_and_confirm_witness :
    handleSerialData initState (withCRC ['D', '1']) =
      sendConnectedMessage (registerDevice initState ['D', '1']) ['D', '1'] ∧
    getA (sendConnectedMessage (registerDevice initState ['D', '1'])
      ['D', '1']).1.connectedDevices ['D', '1'] = some true :=
  ⟨(register_and_confirm initState ['D', '1'] (by decide) (by decide)
      (by simp [initState]) (by decide)).1,
   (register_and_confirm initState ['D', '1'] (by decide) (by decide)
      (by simp [initState]) (by decide)).2.2.2.2.2⟩

/-! Claim C5: successful readings and round-robin order. -/

theorem reading_step (s : EngineState) (addr val : List Char)
    (ha : addr ∈ s.deviceAddresses) (hac : ',' ∉ addr) (hvc : ',' ∉ val) :
    handleSerialData s (readingData addr val) =
      ({ s with
         deviceTemperatures := setA s.deviceTemperatures addr val
         errorCounters := setA s.errorCounters addr 0
         currentDeviceIndex := (s.currentDeviceIndex + 1) % s.deviceAddresses.length },
       if s.isSampling then [Event.schedulePoll waitTime] else []) := by
  unfold readingData
  rw [handleSerialData_valid]
  have hmem : ',' ∈ addr ++ ',' :: val :=
    List.mem_append.mpr (Or.inr (List.mem_cons_self ',' val))
  rw [if_pos hmem]
  have hsplit : splitOnChar ',' (addr ++ ',' :: val) = [addr, val] := by
    rw [splitOnChar_append ',' addr val hac, splitOnChar_no_sep ',' val hvc]
  rw [hsplit]
  simp only [List.headD_cons]
  rw [if_pos ha]
  rfl

theorem runReadings_cyclic (vals : List (List Char)) :
    ∀ s : EngineState, s.isSampling = true →
      s.currentDeviceIndex < s.deviceAddresses.length →
      (∀ a ∈ s.deviceAddresses, ',' ∉ a) → (∀ v ∈ vals, ',' ∉ v) →
      (runReadings s vals).2 = (List.range vals.length).map
        (fun j => (s.deviceAddresses.get? ((s.currentDeviceIndex + j) %
          s.deviceAddresses.length)).getD []) ∧
      (runReadings s vals).1.currentDeviceIndex =
        (s.currentDeviceIndex + vals.length) % s.deviceAddresses.length := by
  induction vals with
  | nil =>
    intro s hs hlt hall hv
    exact ⟨rfl, by simp [runReadings, Nat.mod_eq_of_lt hlt]⟩
  | cons v rest ih =>
    intro s hs hlt hall hv
    have hn : 0 < s.deviceAddresses.length := Nat.lt_of_le_of_lt (Nat.zero_le _) hlt
    obtain ⟨a, hga⟩ : ∃ a, s.deviceAddresses.get? s.currentDeviceIndex = some a := by
      rw [List.get?_eq_get hlt]
      exact ⟨_, rfl⟩
    have hmem : a ∈ s.deviceAddresses := List.get?_mem hga
    have hstep := reading_step s a v hmem (hall a hmem) (hv v (List.mem_cons_self v rest))
    have hs1 : (handleSerialData s (readingData a v)).1 =
        { s with
          deviceTemperatures := setA s.deviceTemperatures a v
          errorCounters := setA s.errorCounters a 0
          currentDeviceIndex := (s.currentDeviceIndex + 1) % s.deviceAddresses.length } :=
      congrArg Prod.fst hstep
    have hrr : runReadings s (v :: rest) =
        ((runReadings (handleSerialData s (readingData a v)).1 rest).1,
         a :: (runReadings (handleSerialData s (readingData a v)).1 rest).2) := by
      simp only [runReadings, hga, Option.getD_some]
    have ihapp := ih (handleSerialData s (readingData a v)).1
      (by rw [hs1]; exact hs)
      (by rw [hs1]; exact Nat.mod_lt _ hn)
      (by rw [hs1]; exact hall)
      (fun v2 hv2 => hv v2 (List.mem_cons_of_mem v hv2))
    rw [hs1] at ihapp
    dsimp only at ihapp
    constructor
    · rw [hrr]
      show a :: _ = _
      rw [hs1, ihapp.1, List.length_cons, List.range_succ_eq_map, List.map_cons,
        List.map_map]
      congr 1
      · have hga2 : s.deviceAddresses[s.currentDeviceIndex]? = some a := by
          rw [← List.get?_eq_getElem?]
          exact hga
        simp [Nat.mod_eq_of_lt hlt, hga, hga2]
      · apply List.map_congr_left
        intro j hj
        simp only [Function.comp]
        rw [Nat.mod_add_mod]
        have harith : s.currentDeviceIndex + 1 + j = s.currentDeviceIndex + (j + 1) := by
          omega
        rw [harith]
    · rw [hrr]
      show (runReadings _ rest).1.currentDeviceIndex = _
      rw [hs1, ihapp.2, Nat.mod_add_mod]
      simp only [List.length_cons]
      congr 1
      omega

/-- Claim C5: while sampling is active, each successful reading for a
known address records the value as that device temperature, resets its
errorCount to 0, and advances the cursor to (cursor+1) mod size, so
successive polls visit the registered addresses in strict cyclic
order. -/
theorem polling_round_robin :
    (∀ (s : EngineState) (addr val : List Char),
      addr ∈ s.deviceAddresses → ',' ∉ addr → ',' ∉ val → s.isSampling = true →
      getA (handleSerialData s (readingData addr val)).1.deviceTemperatures addr =
        some val ∧
      getA (handleSerialData s (readingData addr val)).1.errorCounters addr = some 0 ∧
      (handleSerialData s (readingData addr val)).1.currentDeviceIndex =
        (s.currentDeviceIndex + 1) % s.deviceAddresses.length ∧
      (handleSerialData s (readingData addr val)).1.deviceAddresses =
        s.deviceAddresses ∧
      (handleSerialData s (readingData addr val)).2 = [Event.schedulePoll waitTime]) ∧
    (∀ (s : EngineState) (vals : List (List Char)),
      s.isSampling = true → s.currentDeviceIndex < s.deviceAddresses.length →
      (∀ a ∈ s.deviceAddresses, ',' ∉ a) → (∀ v ∈ vals, ',' ∉ v) →
      (runReadings s vals).2 = (List.range vals.length).map
        (fun j => (s.deviceAddresses.get? ((s.currentDeviceIndex + j) %
          s.deviceAddresses.length)).getD []) ∧
      (runReadings s vals).1.currentDeviceIndex =
        (s.currentDeviceIndex + vals.length) % s.deviceAddresses.length) := by
  constructor
  · intro s addr val ha hac hvc hs
    rw [reading_step s addr val ha hac hvc]
    refine ⟨getA_setA_self _ _ _, getA_setA_self _ _ _, rfl, rfl, ?_⟩
    rw [if_pos hs]
  · intro s vals hs hlt hall hv
    exact runReadings_cyclic vals s hs hlt hall hv

theorem polling_round_robin_witness :
    getA (handleSerialData
      { initState with deviceAddresses := [['A'], ['B'], ['C']], isSampling := true }
      (readingData ['A'] ['7'])).1.deviceTemperatures ['A'] = some ['7'] ∧
    (runReadings
      { initState with deviceAddresses := [['A'], ['B'], ['C']], isSampling := true }
      [['1'], ['2'], ['3'], ['4']]).2 = [['A'], ['B'], ['C'], ['A']] :=
  ⟨(polling_round_robin.1 _ ['A'] ['7'] (by decide) (by decide) (by decide) rfl).1,
   ((polling_round_robin.2 _ [['1'], ['2'], ['3'], ['4']] rfl (by decide)
      (by decide) (by decide)).1).trans (by decide)⟩

/-! Claim C6: fault accumulation and device skipping. -/

/-- Claim C6: each corrupted frame attributed to the (non-empty-address)
device at the cursor increments that device's errorCount; once the count
exceeds the threshold 5 the cursor advances past the device; the device
stays in the registry; and the count is not reset by the skip (it still
equals the incremented value). -/
theorem corrupted_fault_handling (s : EngineState) (a : List Char)
    (hcur : s.deviceAddresses.get? s.currentDeviceIndex = some a) (hne : a ≠ []) :
    getA (handleCorruptedData s).1.errorCounters a =
      some ((getA s.errorCounters a).getD 0 + 1) ∧
    (handleCorruptedData s).1.deviceAddresses = s.deviceAddresses ∧
    (handleCorruptedData s).1.currentDeviceIndex =
      (if maxErrorCount < (getA s.errorCounters a).getD 0 + 1 then
        (s.currentDeviceIndex + 1) % s.deviceAddresses.length
      else s.currentDeviceIndex) ∧
    (handleCorruptedData s).2 = [Event.schedulePoll waitTime] := by
  unfold handleCorruptedData
  rw [hcur]
  dsimp only
  rw [if_neg hne]
  by_cases hth : maxErrorCount < (getA s.errorCounters a).getD 0 + 1
  · rw [if_pos hth]
    refine ⟨getA_setA_self _ _ _, rfl, ?_, rfl⟩
    rw [if_pos hth]
  · rw [if_neg hth]
    refine ⟨getA_setA_self _ _ _, rfl, ?_, rfl⟩
    rw [if_neg hth]

theorem corrupted_fault_handling_witness :
    getA (handleCorruptedData { initState with
      deviceAddresses := [['A'], ['B']],
      errorCounters := [(['A'], 5)] }).1.errorCounters ['A'] = some 6 ∧
    (handleCorruptedData { initState with
      deviceAddresses := [['A'], ['B']],
      errorCounters := [(['A'], 5)] }).1.deviceAddresses = [['A'], ['B']] :=
  ⟨(corrupted_fault_handling _ ['A'] (by decide) (by decide)).1,
   (corrupted_fault_handling _ ['A'] (by decide) (by decide)).2.1⟩

/-! Claim C7: where error counters can change. -/

theorem handleCorruptedData_counters (s : EngineState) :
    (handleCorruptedData s).1.errorCounters = s.errorCounters ∨
    (∃ addr, s.deviceAddresses.get? s.currentDeviceIndex = some addr ∧
      (handleCorruptedData s).1.errorCounters =
        setA s.errorCounters addr ((getA s.errorCounters addr).getD 0 + 1)) := by
  unfold handleCorruptedData
  cases hg : s.deviceAddresses.get? s.currentDeviceIndex with
  | none => exact Or.inl rfl
  | some addr =>
    dsimp only
    by_cases he : addr = []
    · rw [if_pos he]
      exact Or.inl rfl
    · rw [if_neg he]
      by_cases ht : maxErrorCount < (getA s.errorCounters addr).getD 0 + 1
      · rw [if_pos ht]
        exact Or.inr ⟨addr, rfl, rfl⟩
      · rw [if_neg ht]
        exact Or.inr ⟨addr, rfl, rfl⟩

theorem handleSerialData_counters (s : EngineState) (data : List Char) :
    (handleSerialData s data).1.errorCounters = s.errorCounters ∨
    (∃ addr, s.deviceAddresses.get? s.currentDeviceIndex = some addr ∧
      (handleSerialData s data).1.errorCounters =
        setA s.errorCounters addr ((getA s.errorCounters addr).getD 0 + 1)) ∨
    (∃ m, (handleSerialData s data).1.errorCounters = setA s.errorCounters m 0) := by
  unfold handleSerialData
  by_cases hemp : data.isEmpty
  · rw [if_pos hemp]
    exact Or.inl rfl
  · rw [if_neg hemp]
    cases hidx : lastIdxOf ',' data with
    | none =>
      dsimp only
      rcases handleCorruptedData_counters s with h | h
      · exact Or.inl h
      · exact Or.inr (Or.inl h)
    | some i =>
      dsimp only
      by_cases hcrc : parseIntHex (data.drop (i + 1)) ≠
          some (Int.ofNat (calculateCRC (data.take i)))
      · rw [if_pos hcrc]
        dsimp only
        rcases handleCorruptedData_counters s with h | h
        · exact Or.inl h
        · exact Or.inr (Or.inl h)
      · rw [if_neg hcrc]
        by_cases hcm : ',' ∈ data.take i
        · rw [if_pos hcm]
          by_cases haddr : (splitOnChar ',' (data.take i)).headD [] ∈ s.deviceAddresses
          · rw [if_pos haddr]
            exact Or.inr (Or.inr ⟨_, rfl⟩)
          · rw [if_neg haddr]
            unfold tryRegister
            by_cases hreg : (getA s.connectedDevices (data.take i)).getD false = false ∧
                data.take i ∉ s.deviceAddresses
            · rw [if_pos hreg]
              exact Or.inr (Or.inr ⟨data.take i, rfl⟩)
            · rw [if_neg hreg]
              exact Or.inl rfl
        · rw [if_neg hcm]
          unfold tryRegister
          by_cases hreg : (getA s.connectedDevices (data.take i)).getD false = false ∧
              data.take i ∉ s.deviceAddresses
          · rw [if_pos hreg]
            exact Or.inr (Or.inr ⟨data.take i, rfl⟩)
          · rw [if_neg hreg]
            exact Or.inl rfl

/-- Claim C7 (amended): processing a frame changes the errorCount of a
device only if that device is the one at the cursor, or the change sets
the count to 0 (the reset performed for any known address on a valid
reading, and the initialisation on registration, apply regardless of the
cursor). -/
theorem errorCount_change_characterised (s : EngineState) (data a : List Char)
    (hch : getA (handleSerialData s data).1.errorCounters a ≠ getA s.errorCounters a) :
    s.deviceAddresses.get? s.currentDeviceIndex = some a ∨
    getA (handleSerialData s data).1.errorCounters a = some 0 := by
  rcases handleSerialData_counters s data with h | ⟨addr, hg, h⟩ | ⟨m, h⟩
  · rw [h] at hch
    exact absurd rfl hch
  · rw [h] at hch ⊢
    by_cases ha : a = addr
    · subst ha
      exact Or.inl hg
    · rw [getA_setA_ne _ _ _ _ ha] at hch
      exact absurd rfl hch
  · rw [h] at hch ⊢
    by_cases ha : a = m
    · subst ha
      exact Or.inr (getA_setA_self _ _ _)
    · rw [getA_setA_ne _ _ _ _ ha] at hch
      exact absurd rfl hch

theorem errorCount_change_characterised_witness :
    { initState with deviceAddresses := [['A']] }.deviceAddresses.get?
      { initState with deviceAddresses := [['A']] }.currentDeviceIndex = some ['A'] ∨
    getA (handleSerialData { initState with deviceAddresses := [['A']] }
      ['Z']).1.errorCounters ['A'] = some 0 :=
  errorCount_change_characterised { initState with deviceAddresses := [['A']] }
    ['Z'] ['A'] (by decide)

/-- Claim C7 counterexample: in a state reached from the initial state by
a concrete frame sequence, device B holds errorCount 3 while the cursor
is on device A, and a valid reading frame for B then resets B's count to
0 even though B is not the current polling target; so frame processing
does modify the errorCount of a device that is not at the cursor. -/
theorem errorCount_reset_off_cursor_cex :
    (let s5 := List.foldl (fun st d => (handleSerialData st d).1) initState
      [withCRC ['A'], withCRC ['B'], withCRC ['A', ',', '1'],
       ['X'], ['X'], ['X'], withCRC ['A', ',', '2']]
     s5.deviceAddresses.get? s5.currentDeviceIndex = some ['A'] ∧
     getA s5.errorCounters ['B'] = some 3 ∧
     getA (handleSerialData s5 (withCRC ['B', ',', '7'])).1.errorCounters ['B'] =
       some 0) := by
  decide

/-! Claim C8: corrupted frames while sampling is inactive. -/

theorem handleCorruptedData_isSampling (s : EngineState) :
    (handleCorruptedData s).1.isSampling = s.isSampling := by
  unfold handleCorruptedData
  cases hg : s.deviceAddresses.get? s.currentDeviceIndex with
  | none => rfl
  | some addr =>
    dsimp only
    by_cases he : addr = []
    · rw [if_pos he]
    · rw [if_neg he]
      by_cases ht : maxErrorCount < (getA s.errorCounters addr).getD 0 + 1
      · rw [if_pos ht]
      · rw [if_neg ht]

theorem handleCorruptedData_events (s : EngineState) :
    (handleCorruptedData s).2 = [] ∨
    (handleCorruptedData s).2 = [Event.schedulePoll waitTime] := by
  unfold handleCorruptedData
  cases hg : s.deviceAddresses.get? s.currentDeviceIndex with
  | none => exact Or.inl rfl
  | some addr =>
    dsimp only
    by_cases he : addr = []
    · rw [if_pos he]
      exact Or.inl rfl
    · rw [if_neg he]
      by_cases ht : maxErrorCount < (getA s.errorCounters addr).getD 0 + 1
      · rw [if_pos ht]
        exact Or.inr rfl
      · rw [if_neg ht]
        exact Or.inr rfl

theorem handleCorruptedData_empty (s : EngineState) (h : s.deviceAddresses = []) :
    handleCorruptedData s = (s, []) := by
  unfold handleCorruptedData
  rw [h, List.get?_nil]

theorem handleSerialData_corrupted (s : EngineState) (data : List Char)
    (hc : isCorrupted data = true) :
    handleSerialData s data =
      ((handleCorruptedData s).1, Event.framingErrorLog :: (handleCorruptedData s).2) ∨
    handleSerialData s data =
      ((handleCorruptedData s).1, Event.integrityErrorLog :: (handleCorruptedData s).2) := by
  unfold isCorrupted at hc
  unfold handleSerialData
  by_cases hemp : data.isEmpty
  · rw [hemp] at hc
    simp at hc
  · rw [if_neg hemp]
    have hemp2 : data.isEmpty = false := by
      cases hb : data.isEmpty
      · rfl
      · exact absurd hb hemp
    cases hidx : lastIdxOf ',' data with
    | none => exact Or.inl rfl
    | some i =>
      rw [hidx, hemp2] at hc
      simp only [Bool.not_false, Bool.true_and, decide_eq_true_eq] at hc
      dsimp only
      rw [if_pos hc]
      exact Or.inr rfl

/-- Claim C8 (amended): when a corrupted frame (no comma, or CRC
mismatch) arrives while sampling is not active, no poll request is
issued: the handler emits no send event and the requestTemperature that
its scheduled timeout will invoke sends nothing.  When moreover the
registry is empty (as during early discovery), the frame is logged only:
the state is unchanged, so no errorCount changes and the cursor does not
move.  (With a non-empty registry the cursor device's errorCount is
still incremented even though sampling is inactive.) -/
theorem corrupted_while_not_sampling (s : EngineState) (data : List Char)
    (hs : s.isSampling = false) (hc : isCorrupted data = true) :
    requestTemperature (handleSerialData s data).1 = [] ∧
    (∀ e ∈ (handleSerialData s data).2, ∀ f, e ≠ Event.send f) ∧
    (s.deviceAddresses = [] →
      (handleSerialData s data).1 = s ∧
      ((handleSerialData s data).2 = [Event.framingErrorLog] ∨
       (handleSerialData s data).2 = [Event.integrityErrorLog])) := by
  have hsamp : (handleSerialData s data).1.isSampling = false := by
    rcases handleSerialData_corrupted s data hc with h | h <;>
      rw [h] <;> rw [handleCorruptedData_isSampling] <;> exact hs
  refine ⟨?_, ?_, ?_⟩
  · unfold requestTemperature
    rw [if_pos (Or.inr hsamp)]
  · intro e he f
    rcases handleSerialData_corrupted s data hc with h | h <;> rw [h] at he <;>
      rcases List.mem_cons.mp he with h2 | h2
    · exact h2 ▸ (by simp)
    · rcases handleCorruptedData_events s with h3 | h3 <;> rw [h3] at h2
      · simp at h2
      · exact (List.mem_singleton.mp h2) ▸ (by simp)
    · exact h2 ▸ (by simp)
    · rcases handleCorruptedData_events s with h3 | h3 <;> rw [h3] at h2
      · simp at h2
      · exact (List.mem_singleton.mp h2) ▸ (by simp)
  · intro hempreg
    have hcd := handleCorruptedData_empty s hempreg
    rcases handleSerialData_corrupted s data hc with h | h <;> rw [h, hcd]
    · exact ⟨rfl, Or.inl rfl⟩
    · exact ⟨rfl, Or.inr rfl⟩

theorem corrupted_while_not_sampling_witness :
    requestTemperature (handleSerialData initState ['Z']).1 = [] ∧
    (handleSerialData initState ['Z']).1 = initState :=
  ⟨(corrupted_while_not_sampling initState ['Z'] rfl (by decide)).1,
   ((corrupted_while_not_sampling initState ['Z'] rfl (by decide)).2.2 rfl).1⟩

/-- Claim C8 counterexample: a corrupted frame arriving while sampling is
not active is not merely logged once a device has been registered during
discovery: starting from the initial state, after device A announces
itself (sampling still inactive), a comma-free garbage line increments
A's errorCount from 0 to 1, contradicting the claim that no device's
errorCount changes. -/
theorem corrupted_during_discovery_cex :
    (handleSerialData initState (withCRC ['A'])).1.isSampling = false ∧
    getA (handleSerialData initState (withCRC ['A'])).1.errorCounters ['A'] = some 0 ∧
    getA (handleSerialData (handleSerialData initState (withCRC ['A'])).1
      ['X', 'Y', 'Z']).1.errorCounters ['A'] = some 1 := by
  decide

/-! Claim C9: comma-free lines are framing failures. -/

/-- Claim C9 (amended): every complete received line that is nonempty
after trimming and contains no comma is classified as a framing failure
(the framing-error log, never the integrity-error log) and routed to the
fault handler handleCorruptedData; lines that trim to empty are silently
ignored. -/
theorem no_comma_line_framing (s : EngineState) (line : List Char)
    (hne : jsTrim line ≠ []) (hnc : ',' ∉ line) :
    processLine s line =
      ((handleCorruptedData s).1, Event.framingErrorLog :: (handleCorruptedData s).2) ∧
    Event.integrityErrorLog ∉ (processLine s line).2 := by
  have hnc2 : ',' ∉ jsTrim line := fun h => hnc (mem_jsTrim line ',' h)
  have hidx : lastIdxOf ',' (jsTrim line) = none := lastIdxOf_eq_none _ _ hnc2
  have hmain : processLine s line =
      ((handleCorruptedData s).1,
       Event.framingErrorLog :: (handleCorruptedData s).2) := by
    unfold processLine handleSerialData
    rw [if_neg (by simp [List.isEmpty_iff, hne])]
    rw [hidx]
  refine ⟨hmain, ?_⟩
  rw [hmain]
  intro hmem
  rcases List.mem_cons.mp hmem with h | h
  · exact absurd h (by decide)
  · rcases handleCorruptedData_events s with he | he <;> rw [he] at h
    · simp at h
    · exact absurd (List.mem_singleton.mp h) (by simp)

theorem no_comma_line_framing_witness :
    processLine initState ['Z'] =
      ((handleCorruptedData initState).1,
       Event.framingErrorLog :: (handleCorruptedData initState).2) :=
  (no_comma_line_framing initState ['Z'] (by decide) (by decide)).1

/-- Claim C9 counterexample: a complete line containing no comma that
trims to empty (here a single space) is silently dropped: processing it
leaves the state unchanged and emits nothing, in particular no framing
classification reaches the fault handler. -/
theorem no_comma_line_framing_cex :
    processLine initState [' '] = (initState, []) ∧
    Event.framingErrorLog ∉ (processLine initState [' ']).2 := by
  decide

/-! Claim C10: polling eligibility ignores the confirmed flag. -/

/-- Claim C10: the transition from discovery to sampling depends only on
the number of registered addresses, not on confirmation: for any state
with at least 4 registered devices the delayed discovery check switches
isSampling on, leaves every confirmed flag untouched, and the scheduler
then sends address,READTEMP for the device at the cursor even when that
device's confirmed flag is still false. -/
theorem polling_ignores_confirmation :
    ∀ s : EngineState, 4 ≤ s.deviceAddresses.length →
      (discoveryCheck s).1 = { s with isSampling := true } ∧
      (discoveryCheck s).1.connectedDevices = s.connectedDevices ∧
      (∀ a, s.deviceAddresses.get? s.currentDeviceIndex = some a →
        getA s.connectedDevices a = some false →
        (discoveryCheck s).2 = [Event.send (frameOf (a ++ ",READTEMP".data))]) := by
  intro s h4
  have hd : discoveryCheck s =
      ({ s with isSampling := true },
       requestTemperature { s with isSampling := true }) := by
    unfold discoveryCheck
    rw [if_neg (by omega)]
  refine ⟨by rw [hd], by rw [hd], ?_⟩
  intro a hga hconf
  rw [hd]
  show requestTemperature { s with isSampling := true } = _
  unfold requestTemperature
  have hcond : ¬ (({ s with isSampling := true } : EngineState).deviceAddresses.length = 0 ∨
      ({ s with isSampling := true } : EngineState).isSampling = false) := by
    dsimp only
    push_neg
    exact ⟨by omega, by simp⟩
  rw [if_neg hcond]
  dsimp only
  rw [hga]
  rfl

theorem polling_ignores_confirmation_witness :
    (discoveryCheck { initState with
      deviceAddresses := [['A'], ['B'], ['C'], ['D']],
      connectedDevices := [(['A'], false), (['B'], false), (['C'], false), (['D'], false)]
      }).2 = [Event.send (frameOf (['A'] ++ ",READTEMP".data))] :=
  (polling_ignores_confirmation { initState with
      deviceAddresses := [['A'], ['B'], ['C'], ['D']],
      connectedDevices := [(['A'], false), (['B'], false), (['C'], false), (['D'], false)]
      } (by decide)).2.2 ['A'] (by decide) (by decide)

end RS485
